import Mathlib

/-!
Shallow embedding of the `redis-decorators` repository (packages
`redis_decorators` and the legacy `redis_utils`), for checking its
natural-language specification.

The external Redis engine is modelled as a typed key space
(string / hash / list values) together with a per-key time-to-live map.
Client commands used by the repository (`get`, `set`, `hget`, `hset`,
`hgetall`, `rpush`, `lrange`, `delete`, `expire`) are modelled with the
behaviour of the real engine plus the `redis-py` client with
`decode_responses=True`:
* fetching a key that does not exist yields `none`;
* a command applied to a key holding a value of the wrong type fails
  with a WRONGTYPE error;
* `hset` with an empty mapping is rejected by the client (`DataError`);
* `rpush` with zero values is rejected by the server (wrong arity);
* `expire` with a non-positive ttl deletes the key, otherwise it sets
  the remaining ttl; `set` discards any previous ttl.
Hash values are modelled as association lists in insertion order with
field update in place, matching how the engine and the Python `dict`
on the client side preserve and compare field/value pairs.
-/

namespace RedisDec

/-- Errors surfaced by the engine or the redis-py client layer. -/
inductive RErr where
  | wrongType
  | dataError
  | wrongArity
deriving DecidableEq, Repr

/-- A value held at one key of the engine: string, hash or list. -/
inductive RVal where
  | str (s : String)
  | hash (fields : List (String × String))
  | list (elems : List String)
deriving DecidableEq, Repr

/-- State of the engine: key space plus remaining time-to-live per key. -/
structure RedisState where
  data : String → Option RVal
  ttl : String → Option Int

/-- State with no keys set. -/
def rEmpty : RedisState := ⟨fun _ => none, fun _ => none⟩

/-- Replace the value stored at key `k` (leaving ttl untouched). -/
def setData (s : RedisState) (k : String) (v : Option RVal) : RedisState :=
  { s with data := fun k' => if k' = k then v else s.data k' }

/-- Replace the ttl recorded for key `k`. -/
def setTtl (s : RedisState) (k : String) (n : Option Int) : RedisState :=
  { s with ttl := fun k' => if k' = k then n else s.ttl k' }

/-- Model of `client.set(key, value)`: stores a string, discarding any ttl. -/
def rSet (s : RedisState) (k v : String) : RedisState :=
  setTtl (setData s k (some (RVal.str v))) k none

/-- Model of `client.get(key)`. -/
def rGet (s : RedisState) (k : String) : Except RErr (Option String) :=
  match s.data k with
  | none => .ok none
  | some (RVal.str v) => .ok (some v)
  | some _ => .error .wrongType

/-- Model of `client.delete(key)`. -/
def rDelete (s : RedisState) (k : String) : RedisState :=
  setTtl (setData s k none) k none

/-- Model of `client.expire(key, n)`: no-op on a missing key; deletes the
key when `n ≤ 0`; otherwise records `n` as the remaining ttl. -/
def rExpire (s : RedisState) (k : String) (n : Int) : RedisState :=
  match s.data k with
  | none => s
  | some _ => if n ≤ 0 then rDelete s k else setTtl s k (some n)

/-- Field lookup in a hash (association list). -/
def assocGet : List (String × String) → String → Option String
  | [], _ => none
  | (f, v) :: rest, f' => if f' = f then some v else assocGet rest f'

/-- Field update in a hash: replace in place, or append a new field. -/
def assocSet : List (String × String) → String → String → List (String × String)
  | [], f, v => [(f, v)]
  | (g, w) :: rest, f, v =>
      if g = f then (g, v) :: rest else (g, w) :: assocSet rest f v

/-- Fold a mapping into a hash, field by field (HSET with several pairs). -/
def hsetPairs (l m : List (String × String)) : List (String × String) :=
  m.foldl (fun acc p => assocSet acc p.1 p.2) l

/-- Model of `client.hset(key, field, value)` (single field). -/
def hsetField (s : RedisState) (k f v : String) : Except RErr RedisState :=
  match s.data k with
  | none => .ok (setData s k (some (RVal.hash [(f, v)])))
  | some (RVal.hash l) => .ok (setData s k (some (RVal.hash (assocSet l f v))))
  | some _ => .error .wrongType

/-- Model of `client.hset(key, mapping=m)`: the redis-py client rejects an
empty mapping with `DataError`; otherwise the given fields are merged into
the hash already at `k`. -/
def hsetMapping (s : RedisState) (k : String) (m : List (String × String)) :
    Except RErr RedisState :=
  if m = [] then .error .dataError
  else match s.data k with
    | none => .ok (setData s k (some (RVal.hash (hsetPairs [] m))))
    | some (RVal.hash l) => .ok (setData s k (some (RVal.hash (hsetPairs l m))))
    | some _ => .error .wrongType

/-- Model of `client.hget(key, field)`. -/
def hget (s : RedisState) (k f : String) : Except RErr (Option String) :=
  match s.data k with
  | none => .ok none
  | some (RVal.hash l) => .ok (assocGet l f)
  | some _ => .error .wrongType

/-- Model of `client.hgetall(key)`: an empty dict for a missing key. -/
def hgetall (s : RedisState) (k : String) :
    Except RErr (List (String × String)) :=
  match s.data k with
  | none => .ok []
  | some (RVal.hash l) => .ok l
  | some _ => .error .wrongType

/-- Model of `client.rpush(key, *values)`: the server rejects the command
when no value is given; otherwise the values are appended in order. -/
def rpush (s : RedisState) (k : String) (vs : List String) :
    Except RErr RedisState :=
  if vs = [] then .error .wrongArity
  else match s.data k with
    | none => .ok (setData s k (some (RVal.list vs)))
    | some (RVal.list l) => .ok (setData s k (some (RVal.list (l ++ vs))))
    | some _ => .error .wrongType

/-- Model of `client.lrange(key, 0, -1)`: the whole list, `[]` if unset. -/
def lrangeAll (s : RedisState) (k : String) : Except RErr (List String) :=
  match s.data k with
  | none => .ok []
  | some (RVal.list l) => .ok l
  | some _ => .error .wrongType

/-! ### Type adapters (`redis_decorators/cacheable.py`)

Each adapter is embedded as its `store`/`fetch` pair, with the `Redis`
client argument replaced by explicit state passing. -/

namespace StringCacheable

/-- StringCacheable.store: `client.set(key, value)`. -/
def store (s : RedisState) (k v : String) : Except RErr RedisState :=
  .ok (rSet s k v)

/-- StringCacheable.fetch: `return client.get(key)`. -/
def fetch (s : RedisState) (k : String) : Except RErr (Option String) :=
  rGet s k

end StringCacheable

namespace DictStringCacheable

/-- DictStringCacheable.store: `client.hset(key, self.dict_key, value)`. -/
def store (dictKey : String) (s : RedisState) (k v : String) :
    Except RErr RedisState :=
  hsetField s k dictKey v

/-- DictStringCacheable.fetch: `return client.hget(key, self.dict_key)`. -/
def fetch (dictKey : String) (s : RedisState) (k : String) :
    Except RErr (Option String) :=
  hget s k dictKey

end DictStringCacheable

namespace DictCacheable

/-- DictCacheable.store: `client.hset(key, mapping=value)`. -/
def store (s : RedisState) (k : String) (v : List (String × String)) :
    Except RErr RedisState :=
  hsetMapping s k v

/-- DictCacheable.fetch: `return client.hgetall(key) or None`. -/
def fetch (s : RedisState) (k : String) :
    Except RErr (Option (List (String × String))) :=
  (hgetall s k).map (fun d => if d = [] then none else some d)

end DictCacheable

namespace ListCacheable

/-- ListCacheable.store: `client.delete(key)` then `client.rpush(key, *value)`. -/
def store (s : RedisState) (k : String) (v : List String) :
    Except RErr RedisState :=
  rpush (rDelete s k) k v

/-- ListCacheable.fetch: `return client.lrange(key, 0, -1) or None`. -/
def fetch (s : RedisState) (k : String) :
    Except RErr (Option (List String)) :=
  (lrangeAll s k).map (fun l => if l = [] then none else some l)

end ListCacheable

/-! ### Cache elements (`redis_decorators/cache_element.py`)

A `CacheElement` pairs an adapter (`fetch`/`store` over the engine state,
with store type `S`) with `load`/`dump` transforms to the application
type `F`. -/

structure CacheElement (F S : Type) where
  fetch : RedisState → String → Except RErr (Option S)
  store : RedisState → String → S → Except RErr RedisState
  load : S → F
  dump : F → S

/-- CacheElement.get_value: fetch, and `load` unless the result is `None`. -/
def CacheElement.getValue {F S : Type} (e : CacheElement F S)
    (s : RedisState) (k : String) : Except RErr (Option F) :=
  (e.fetch s k).map (Option.map e.load)

/-- CacheElement.set_value: `store(client, key, dump(value))`. -/
def CacheElement.setValue {F S : Type} (e : CacheElement F S)
    (s : RedisState) (k : String) (v : F) : Except RErr RedisState :=
  e.store s k (e.dump v)

/-- CacheElementSingleType over StringCacheable, the element built by
`RedisCaching.cache_string`: `load` and `dump` are the identity. -/
def stringElement : CacheElement String String :=
  ⟨StringCacheable.fetch, StringCacheable.store, id, id⟩

/-! ### The memoizing wrapper (`redis_decorators/caching.py`)

`CacheValueWrapper` is embedded with the Python call convention made
explicit: a call carries a list of positional arguments (of a type `κ`
whose `toString` models Python `str()`) and a keyword-argument part `μ`
(whose `toString` models `str()` of the kwargs dict).  A ttl-computing
function configured via `expire_in` receives, per
`_calculate_expire_in`, the positional arguments, the keyword arguments
(extended with the stored value under the key `value`) — embedded as an
extra explicit argument. -/

/-- Configured `expire_in`: absent, a fixed number of seconds, or a
function of the call arguments and the freshly stored value. -/
inductive ExpireSpec (κ μ β : Type) where
  | unset
  | const (n : Int)
  | func (f : List κ → μ → β → Int)

structure CacheValueWrapper (κ μ β σ : Type) where
  funcName : String
  func : List κ → μ → β
  cacheElement : CacheElement β σ
  getCacheKey : Option (List κ → μ → String)
  expireSpec : ExpireSpec κ μ β

variable {κ μ β σ : Type}

/-- CacheValueWrapper._calculate_cache_key: the configured key function
applied to the call arguments, or, when none was ever configured, the
default key `':'.join(["redis_decorators", ':'.join([name, *map(str, args), str(kwargs)])])`. -/
def CacheValueWrapper.calculateCacheKey [ToString κ] [ToString μ]
    (w : CacheValueWrapper κ μ β σ) (args : List κ) (kwargs : μ) : String :=
  match w.getCacheKey with
  | none =>
      String.intercalate ":" ["redis_decorators",
        String.intercalate ":"
          (w.funcName :: (args.map toString ++ [toString kwargs]))]
  | some g => g args kwargs

/-- CacheValueWrapper._calculate_expire_in: a callable `expire_in` is
applied to the arguments and the stored value; otherwise the configured
constant (or nothing) is returned. -/
def CacheValueWrapper.calcExpire (w : CacheValueWrapper κ μ β σ)
    (value : β) (args : List κ) (kwargs : μ) : Option Int :=
  match w.expireSpec with
  | .unset => none
  | .const n => some n
  | .func f => some (f args kwargs value)

/-- Observable outcome of one wrapper invocation: the returned value, the
engine state afterwards, and how many times the wrapped function and the
adapter store were invoked. -/
structure CallResult (β : Type) where
  value : β
  state : RedisState
  funcCalls : Nat
  storeCalls : Nat

/-- State after the store of a miss: `expire` is issued exactly when
`_calculate_expire_in` yields a truthy (non-zero) value. -/
def CacheValueWrapper.postStore (w : CacheValueWrapper κ μ β σ)
    (s1 : RedisState) (cacheKey : String) (value : β)
    (args : List κ) (kwargs : μ) : RedisState :=
  match w.calcExpire value args kwargs with
  | some n => if n ≠ 0 then rExpire s1 cacheKey n else s1
  | none => s1

/-- CacheValueWrapper.__call__: derive the key, fetch through the element;
on a hit return the deserialized value; on a miss invoke the function,
store its result, optionally set a ttl, and return the fresh result. -/
def CacheValueWrapper.call [ToString κ] [ToString μ]
    (w : CacheValueWrapper κ μ β σ) (s : RedisState)
    (args : List κ) (kwargs : μ) : Except RErr (CallResult β) :=
  let cacheKey := w.calculateCacheKey args kwargs
  match w.cacheElement.getValue s cacheKey with
  | .error e => .error e
  | .ok (some v) => .ok ⟨v, s, 0, 0⟩
  | .ok none =>
      let value := w.func args kwargs
      match w.cacheElement.setValue s cacheKey value with
      | .error e => .error e
      | .ok s1 => .ok ⟨value, w.postStore s1 cacheKey value args kwargs, 1, 1⟩

/-! ### The legacy wrapper (`redis_utils/decorators.py`)

`CacheValue` has no default cache key and no ttl support: calling it
before a key function was configured raises
`ValueError('cache_value: must define get_cache_key.')`. -/

/-- Errors a legacy wrapper call can surface: the configuration
`ValueError` it raises itself, or an engine error passed through. -/
inductive PyErr where
  | valueError (msg : String)
  | redisError (e : RErr)
deriving DecidableEq, Repr

structure CacheValue (κ μ β σ : Type) where
  func : List κ → μ → β
  cacheElement : CacheElement β σ
  getCacheKey : Option (List κ → μ → String)

/-- CacheValue._get_cache_key: raise unless a key function is configured. -/
def CacheValue.cacheKeyOf (w : CacheValue κ μ β σ)
    (args : List κ) (kwargs : μ) : Except PyErr String :=
  match w.getCacheKey with
  | none => .error (.valueError "cache_value: must define get_cache_key.")
  | some g => .ok (g args kwargs)

/-- CacheValue.__call__ of the legacy wrapper. -/
def CacheValue.call (w : CacheValue κ μ β σ) (s : RedisState)
    (args : List κ) (kwargs : μ) : Except PyErr (CallResult β) :=
  match w.cacheKeyOf args kwargs with
  | .error e => .error e
  | .ok cacheKey =>
    match w.cacheElement.getValue s cacheKey with
    | .error e => .error (.redisError e)
    | .ok (some v) => .ok ⟨v, s, 0, 0⟩
    | .ok none =>
        let value := w.func args kwargs
        match w.cacheElement.setValue s cacheKey value with
        | .error e => .error (.redisError e)
        | .ok s1 => .ok ⟨value, s1, 1, 1⟩

/-! ### URL building and the connection registry (`redis_decorators/caching.py`) -/

/-- Truthiness of an optional string argument (Python `if password:`). -/
def truthyStr : Option String → Bool
  | none => false
  | some s => s ≠ ""

/-- Truthiness of an optional integer argument (Python `if db:`). -/
def truthyInt : Option Int → Bool
  | none => false
  | some n => n ≠ 0

/-- build_redis_url: scheme from the secure flag, credential segment when
the password is truthy, db segment when the db index is truthy. -/
def build_redis_url (host : String) (password : Option String)
    (db : Option Int) (use_secure : Bool := true) : String :=
  let scheme := if use_secure then "rediss" else "redis"
  let url :=
    if truthyStr password then
      scheme ++ "://:" ++ password.getD "" ++ "@" ++ host
    else
      scheme ++ "://" ++ host
  if truthyInt db then url ++ "/" ++ toString (db.getD 0) else url

/-- Process-wide registry behind `RedisCaching._cache_instances`, a class
attribute shared by every `RedisCaching` instance.  Client construction
(`Redis.from_url`) is modelled by handing out the next fresh identifier. -/
structure CacheRegistry where
  instances : List (String × Nat)
  nextId : Nat

/-- Dictionary lookup in the registry (`self._cache_instances.get(url)`). -/
def lookupInstance : List (String × Nat) → String → Option Nat
  | [], _ => none
  | (u, c) :: rest, url => if url = u then some c else lookupInstance rest url

/-- RedisCaching.get_cache: return the instance already registered for
the configured URL, or construct one, register it and return it.  The
registry is keyed by URL only, so any holder configured with the same
URL — the same instance or another — observes the same entry. -/
def get_cache (reg : CacheRegistry) (url : String) : Nat × CacheRegistry :=
  match lookupInstance reg.instances url with
  | some c => (c, reg)
  | none => (reg.nextId, ⟨reg.instances ++ [(url, reg.nextId)], reg.nextId + 1⟩)

/-- Fold a sequence of `get_cache` calls (any holders, any URLs) over the
shared registry, keeping only the registry. -/
def runGetCaches (reg : CacheRegistry) (urls : List String) : CacheRegistry :=
  urls.foldl (fun r u => (get_cache r u).2) reg

/-! ### Helper lemmas about the engine model -/

theorem rGet_rSet_self (s : RedisState) (k v : String) :
    rGet (rSet s k v) k = .ok (some v) := by
  simp [rGet, rSet, setTtl, setData]

theorem rDelete_data_self (s : RedisState) (k : String) :
    (rDelete s k).data k = none := by
  simp [rDelete, setTtl, setData]

theorem rExpire_data_of_pos (s : RedisState) (k : String) (n : Int)
    (hn : 0 < n) : (rExpire s k n).data = s.data := by
  unfold rExpire
  cases hd : s.data k with
  | none => rfl
  | some v =>
      have hn' : ¬ n ≤ 0 := by omega
      simp [hn', setTtl]

theorem rExpire_ttl_self_of_pos (s : RedisState) (k : String) (n : Int)
    (hn : 0 < n) (hk : s.data k ≠ none) : (rExpire s k n).ttl k = some n := by
  unfold rExpire
  cases hd : s.data k with
  | none => exact absurd hd hk
  | some v =>
      have hn' : ¬ n ≤ 0 := by omega
      simp [hn', setTtl]

theorem assocGet_assocSet_self (l : List (String × String)) (f v : String) :
    assocGet (assocSet l f v) f = some v := by
  induction l with
  | nil => simp [assocSet, assocGet]
  | cons p rest ih =>
      obtain ⟨g, w⟩ := p
      by_cases hg : g = f
      · subst hg; simp [assocSet, assocGet]
      · simp [assocSet, assocGet, hg, Ne.symm hg, ih]

theorem assocSet_ne_nil (l : List (String × String)) (f v : String) :
    assocSet l f v ≠ [] := by
  cases l with
  | nil => simp [assocSet]
  | cons p rest =>
      obtain ⟨g, w⟩ := p
      simp only [assocSet]
      split <;> simp

theorem assocSet_of_not_mem (l : List (String × String)) (f v : String)
    (h : f ∉ l.map Prod.fst) : assocSet l f v = l ++ [(f, v)] := by
  induction l with
  | nil => simp [assocSet]
  | cons p rest ih =>
      obtain ⟨g, w⟩ := p
      simp only [List.map_cons, List.mem_cons] at h
      push_neg at h
      simp [assocSet, Ne.symm h.1, ih h.2]

theorem hsetPairs_ne_nil (acc m : List (String × String)) (hm : m ≠ []) :
    hsetPairs acc m ≠ [] := by
  induction m generalizing acc with
  | nil => exact absurd rfl hm
  | cons p rest ih =>
      show hsetPairs (assocSet acc p.1 p.2) rest ≠ []
      by_cases hr : rest = []
      · subst hr
        simpa [hsetPairs] using assocSet_ne_nil acc p.1 p.2
      · exact ih (assocSet acc p.1 p.2) hr

theorem hsetPairs_append (m acc : List (String × String))
    (hm : (m.map Prod.fst).Nodup)
    (hdisj : ∀ f ∈ m.map Prod.fst, f ∉ acc.map Prod.fst) :
    hsetPairs acc m = acc ++ m := by
  induction m generalizing acc with
  | nil => simp [hsetPairs]
  | cons p rest ih =>
      obtain ⟨f, v⟩ := p
      simp only [List.map_cons, List.nodup_cons] at hm
      have hf : f ∉ acc.map Prod.fst := hdisj f (by simp)
      have step : hsetPairs acc ((f, v) :: rest)
          = hsetPairs (assocSet acc f v) rest := rfl
      rw [step, assocSet_of_not_mem acc f v hf, ih (acc ++ [(f, v)]) hm.2 ?_]
      · simp
      · intro g hg
        have hgf : g ≠ f := fun h => hm.1 (h ▸ hg)
        have hgacc : g ∉ acc.map Prod.fst := hdisj g (by simp [hg])
        simp [List.map_append, hgacc, hgf]

/-! ### Helper lemmas about the string element and the wrapper -/

theorem stringElement_roundtrip (s : RedisState) (k v : String)
    (s' : RedisState) (h : stringElement.store s k v = .ok s') :
    stringElement.fetch s' k = .ok (some v) := by
  have h' : Except.ok (ε := RErr) (rSet s k v) = .ok s' := h
  injection h' with h'
  subst h'
  exact rGet_rSet_self s k v

theorem stringElement_fetch_expire (s : RedisState) (k k' : String) (n : Int)
    (hn : 0 < n) :
    stringElement.fetch (rExpire s k' n) k = stringElement.fetch s k := by
  show rGet (rExpire s k' n) k = rGet s k
  unfold rGet
  rw [rExpire_data_of_pos s k' n hn]

theorem call_of_hit {κ μ β σ : Type} [ToString κ] [ToString μ]
    (w : CacheValueWrapper κ μ β σ) (s : RedisState)
    (args : List κ) (kwargs : μ) (v : β)
    (h : w.cacheElement.getValue s (w.calculateCacheKey args kwargs)
        = .ok (some v)) :
    w.call s args kwargs = .ok ⟨v, s, 0, 0⟩ := by
  simp [CacheValueWrapper.call, h]

theorem call_of_miss {κ μ β σ : Type} [ToString κ] [ToString μ]
    (w : CacheValueWrapper κ μ β σ) (s s1 : RedisState)
    (args : List κ) (kwargs : μ)
    (hm : w.cacheElement.getValue s (w.calculateCacheKey args kwargs)
        = .ok none)
    (hs : w.cacheElement.setValue s (w.calculateCacheKey args kwargs)
        (w.func args kwargs) = .ok s1) :
    w.call s args kwargs
      = .ok ⟨w.func args kwargs,
             w.postStore s1 (w.calculateCacheKey args kwargs)
               (w.func args kwargs) args kwargs, 1, 1⟩ := by
  simp [CacheValueWrapper.call, hm, hs]

theorem fetch_postStore {κ μ β σ : Type} [ToString κ] [ToString μ]
    (w : CacheValueWrapper κ μ β σ) (s1 : RedisState)
    (args : List κ) (kwargs : μ) (v : β)
    (hti : ∀ t (n : Int), 0 < n →
        w.cacheElement.fetch (rExpire t (w.calculateCacheKey args kwargs) n)
            (w.calculateCacheKey args kwargs)
          = w.cacheElement.fetch t (w.calculateCacheKey args kwargs))
    (hexp : 0 ≤ (w.calcExpire v args kwargs).getD 0) :
    w.cacheElement.fetch
        (w.postStore s1 (w.calculateCacheKey args kwargs) v args kwargs)
        (w.calculateCacheKey args kwargs)
      = w.cacheElement.fetch s1 (w.calculateCacheKey args kwargs) := by
  unfold CacheValueWrapper.postStore
  cases hc : w.calcExpire v args kwargs with
  | none => rfl
  | some n =>
      rw [hc] at hexp
      simp only [Option.getD_some] at hexp
      by_cases hn : n = 0
      · simp [hn]
      · have hpos : 0 < n := lt_of_le_of_ne hexp (Ne.symm hn)
        simp only [hn, ne_eq, not_false_eq_true, if_true]
        exact hti s1 n hpos

theorem setData_data_self (s : RedisState) (k : String) (v : Option RVal) :
    (setData s k v).data k = v := by
  simp [setData]

theorem rSet_data_self (s : RedisState) (k v : String) :
    (rSet s k v).data k = some (RVal.str v) := by
  simp [rSet, setTtl, setData]

theorem intercalate_go_append (a b s : String) (l : List String) :
    String.intercalate.go (a ++ b) s l = a ++ String.intercalate.go b s l := by
  induction l generalizing b with
  | nil => rfl
  | cons x xs ih =>
      have e : a ++ b ++ s ++ x = a ++ (b ++ s ++ x) := by
        simp [String.append_assoc]
      calc String.intercalate.go (a ++ b) s (x :: xs)
          = String.intercalate.go (a ++ b ++ s ++ x) s xs := rfl
        _ = String.intercalate.go (a ++ (b ++ s ++ x)) s xs := by rw [e]
        _ = a ++ String.intercalate.go (b ++ s ++ x) s xs := ih _
        _ = a ++ String.intercalate.go b s (x :: xs) := rfl

theorem intercalate_cons_cons (s a b : String) (l : List String) :
    String.intercalate s (a :: b :: l)
      = a ++ s ++ String.intercalate s (b :: l) :=
  intercalate_go_append (a ++ s) b s l

/-! ### Claim theorems -/

/-- C1: for every wrapped function and every argument list, when the
adapter's fetch for the derived key is a miss the wrapper invokes the
wrapped function exactly once, stores its result under that key and
returns it; when the fetch is a hit the wrapper returns the deserialized
cached value without invoking the wrapped function; hence a second call
with the same derived key after a first call performs no second
computation and no second store.  The hypotheses record that the
configured adapter round-trips at the derived key, that its fetch
ignores the ttl map, and that any configured ttl is non-negative; all
hold for the string adapter the decorators instantiate. -/
theorem c1_memoize_once {κ μ β σ : Type} [ToString κ] [ToString μ]
    (w : CacheValueWrapper κ μ β σ) (s s1 : RedisState)
    (args : List κ) (kwargs : μ)
    (hrt : ∀ t (v : σ) t',
        w.cacheElement.store t (w.calculateCacheKey args kwargs) v = .ok t' →
        w.cacheElement.fetch t' (w.calculateCacheKey args kwargs)
          = .ok (some v))
    (hti : ∀ t (n : Int), 0 < n →
        w.cacheElement.fetch (rExpire t (w.calculateCacheKey args kwargs) n)
            (w.calculateCacheKey args kwargs)
          = w.cacheElement.fetch t (w.calculateCacheKey args kwargs))
    (hexp : ∀ v : β, 0 ≤ (w.calcExpire v args kwargs).getD 0) :
    (∀ v : β,
        w.cacheElement.getValue s (w.calculateCacheKey args kwargs)
          = .ok (some v) →
        w.call s args kwargs = .ok ⟨v, s, 0, 0⟩)
    ∧
    (w.cacheElement.getValue s (w.calculateCacheKey args kwargs) = .ok none →
     w.cacheElement.setValue s (w.calculateCacheKey args kwargs)
        (w.func args kwargs) = .ok s1 →
     w.call s args kwargs
        = .ok ⟨w.func args kwargs,
               w.postStore s1 (w.calculateCacheKey args kwargs)
                 (w.func args kwargs) args kwargs, 1, 1⟩
     ∧ w.cacheElement.getValue
          (w.postStore s1 (w.calculateCacheKey args kwargs)
            (w.func args kwargs) args kwargs)
          (w.calculateCacheKey args kwargs)
        = .ok (some (w.cacheElement.load
            (w.cacheElement.dump (w.func args kwargs))))
     ∧ w.call (w.postStore s1 (w.calculateCacheKey args kwargs)
          (w.func args kwargs) args kwargs) args kwargs
        = .ok ⟨w.cacheElement.load (w.cacheElement.dump (w.func args kwargs)),
               w.postStore s1 (w.calculateCacheKey args kwargs)
                 (w.func args kwargs) args kwargs, 0, 0⟩) := by
  constructor
  · intro v hv
    exact call_of_hit w s args kwargs v hv
  · intro hm hs
    have hstore : w.cacheElement.store s (w.calculateCacheKey args kwargs)
        (w.cacheElement.dump (w.func args kwargs)) = .ok s1 := hs
    have hfetch1 : w.cacheElement.fetch s1 (w.calculateCacheKey args kwargs)
        = .ok (some (w.cacheElement.dump (w.func args kwargs))) :=
      hrt s _ s1 hstore
    have hfetch2 : w.cacheElement.fetch
        (w.postStore s1 (w.calculateCacheKey args kwargs)
          (w.func args kwargs) args kwargs)
        (w.calculateCacheKey args kwargs)
        = .ok (some (w.cacheElement.dump (w.func args kwargs))) := by
      rw [fetch_postStore w s1 args kwargs (w.func args kwargs) hti
        (hexp (w.func args kwargs))]
      exact hfetch1
    have hget2 : w.cacheElement.getValue
        (w.postStore s1 (w.calculateCacheKey args kwargs)
          (w.func args kwargs) args kwargs)
        (w.calculateCacheKey args kwargs)
        = .ok (some (w.cacheElement.load
            (w.cacheElement.dump (w.func args kwargs)))) := by
      simp [CacheElement.getValue, hfetch2, Except.map]
    refine ⟨call_of_miss w s s1 args kwargs hm hs, hget2, ?_⟩
    exact call_of_hit w _ args kwargs _ hget2

/-- Wrapper used to witness the memoization claims: built the way
`RedisCaching.cache_string` builds one, with a configured key function
and no expiration. -/
def c1Wrapper : CacheValueWrapper String String String String :=
  ⟨"f", fun _ _ => "v", stringElement, some (fun _ _ => "k"), ExpireSpec.unset⟩

theorem c1_memoize_once_witness :
    c1Wrapper.call rEmpty [] "" = .ok ⟨"v", rSet rEmpty "k" "v", 1, 1⟩
    ∧ c1Wrapper.call (rSet rEmpty "k" "v") [] ""
        = .ok ⟨"v", rSet rEmpty "k" "v", 0, 0⟩ := by
  have h := (c1_memoize_once c1Wrapper rEmpty (rSet rEmpty "k" "v") [] ""
      (fun t v t' ht => stringElement_roundtrip t "k" v t' ht)
      (fun t n hn => stringElement_fetch_expire t "k" "k" n hn)
      (fun v => by simp [c1Wrapper, CacheValueWrapper.calcExpire])).2
      rfl rfl
  exact ⟨h.1, h.2.2⟩

/-- Current wrapper with no key function ever configured (neither at
decoration time nor attached afterwards), over the string adapter. -/
def defaultKeyWrapper : CacheValueWrapper String String String String :=
  ⟨"f", fun _ _ => "v", stringElement, none, ExpireSpec.unset⟩

/-- Legacy `redis_utils.CacheValue` with no key function configured. -/
def legacyWrapper : CacheValue String String String String :=
  ⟨fun _ _ => "v", stringElement, none⟩

/-- C2, counterexample: in the current `CacheValueWrapper`, invoking a
memoized function with no key-derivation function configured raises
nothing — the call succeeds, derives the default key and memoizes
under it. -/
theorem c2_counterexample :
    defaultKeyWrapper.call rEmpty ["a"] "\x7b\x7d"
      = .ok ⟨"v",
          rSet rEmpty (defaultKeyWrapper.calculateCacheKey ["a"] "\x7b\x7d")
            "v", 1, 1⟩
    ∧ defaultKeyWrapper.calculateCacheKey ["a"] "\x7b\x7d"
        = "redis_decorators:f:a:\x7b\x7d" := by
  constructor
  · rfl
  · decide

/-- C2, amended: only the legacy `redis_utils.CacheValue` wrapper raises
the configuration error (`ValueError`) when invoked before any
key-derivation function is configured; the current `CacheValueWrapper`
never does — with no key function it derives a default key, invokes the
function once and stores the result under that key. -/
theorem c2_config_error {κ μ β σ : Type} [ToString κ] [ToString μ]
    (wLegacy : CacheValue κ μ β σ) (hw : wLegacy.getCacheKey = none)
    (s : RedisState) (args : List κ) (kwargs : μ)
    (wCur : CacheValueWrapper κ μ String String)
    (hce : wCur.cacheElement = stringElement)
    (hes : wCur.expireSpec = ExpireSpec.unset)
    (hmiss : wCur.cacheElement.getValue s
        (wCur.calculateCacheKey args kwargs) = .ok none) :
    wLegacy.call s args kwargs
      = .error (.valueError "cache_value: must define get_cache_key.")
    ∧ wCur.call s args kwargs
      = .ok ⟨wCur.func args kwargs,
             rSet s (wCur.calculateCacheKey args kwargs)
               (wCur.func args kwargs), 1, 1⟩ := by
  constructor
  · simp [CacheValue.call, CacheValue.cacheKeyOf, hw]
  · have hs : wCur.cacheElement.setValue s
        (wCur.calculateCacheKey args kwargs) (wCur.func args kwargs)
        = .ok (rSet s (wCur.calculateCacheKey args kwargs)
            (wCur.func args kwargs)) := by
      rw [hce]; rfl
    have hc := call_of_miss wCur s _ args kwargs hmiss hs
    rw [hc]
    simp [CacheValueWrapper.postStore, CacheValueWrapper.calcExpire, hes]

theorem c2_config_error_witness :
    legacyWrapper.call rEmpty [] ""
      = .error (.valueError "cache_value: must define get_cache_key.")
    ∧ defaultKeyWrapper.call rEmpty [] ""
      = .ok ⟨"v", rSet rEmpty (defaultKeyWrapper.calculateCacheKey [] "")
          "v", 1, 1⟩ :=
  c2_config_error legacyWrapper rfl rEmpty [] "" defaultKeyWrapper rfl rfl rfl

/-- C10: when no key-derivation function has been configured, a call does
not fail: the wrapper derives the default cache key — the colon-join of
`redis_decorators`, the wrapped function's name, `str()` of each
positional argument in order and `str()` of the keyword-argument dict —
and, on a miss, invokes the function once, memoizes the result under
that key, and a fetch of that key then yields the stored result. -/
theorem c10_default_key {κ μ : Type} [ToString κ] [ToString μ]
    (w : CacheValueWrapper κ μ String String) (hk : w.getCacheKey = none)
    (hce : w.cacheElement = stringElement)
    (hes : w.expireSpec = ExpireSpec.unset)
    (s : RedisState) (args : List κ) (kwargs : μ)
    (hmiss : w.cacheElement.getValue s (w.calculateCacheKey args kwargs)
        = .ok none) :
    w.calculateCacheKey args kwargs
      = String.intercalate ":"
          ("redis_decorators" :: w.funcName ::
            (args.map toString ++ [toString kwargs]))
    ∧ w.call s args kwargs
      = .ok ⟨w.func args kwargs,
             rSet s (w.calculateCacheKey args kwargs) (w.func args kwargs),
             1, 1⟩
    ∧ w.cacheElement.getValue
        (rSet s (w.calculateCacheKey args kwargs) (w.func args kwargs))
        (w.calculateCacheKey args kwargs)
      = .ok (some (w.func args kwargs)) := by
  refine ⟨?_, ?_, ?_⟩
  · have hkey : w.calculateCacheKey args kwargs
        = "redis_decorators" ++ ":" ++ String.intercalate ":"
            (w.funcName :: (args.map toString ++ [toString kwargs])) := by
      unfold CacheValueWrapper.calculateCacheKey
      rw [hk]
      rfl
    rw [hkey, intercalate_cons_cons]
  · have hs : w.cacheElement.setValue s
        (w.calculateCacheKey args kwargs) (w.func args kwargs)
        = .ok (rSet s (w.calculateCacheKey args kwargs)
            (w.func args kwargs)) := by
      rw [hce]; rfl
    have hc := call_of_miss w s _ args kwargs hmiss hs
    rw [hc]
    simp [CacheValueWrapper.postStore, CacheValueWrapper.calcExpire, hes]
  · rw [hce]
    show stringElement.getValue _ _ = _
    simp [CacheElement.getValue, stringElement, StringCacheable.fetch,
      rGet_rSet_self, Except.map]

theorem c10_default_key_witness :
    defaultKeyWrapper.calculateCacheKey ["a"] "kw"
      = String.intercalate ":"
          ("redis_decorators" :: "f" :: (["a"].map toString ++ ["kw"]))
    ∧ defaultKeyWrapper.call rEmpty ["a"] "kw"
      = .ok ⟨"v", rSet rEmpty (defaultKeyWrapper.calculateCacheKey ["a"] "kw")
          "v", 1, 1⟩
    ∧ defaultKeyWrapper.cacheElement.getValue
        (rSet rEmpty (defaultKeyWrapper.calculateCacheKey ["a"] "kw") "v")
        (defaultKeyWrapper.calculateCacheKey ["a"] "kw")
      = .ok (some "v") :=
  c10_default_key defaultKeyWrapper rfl rfl rfl rEmpty ["a"] "kw" rfl

/-- State holding a hash with one field `x` at key `k`, used to exhibit
the merge behaviour of the whole-hash adapter. -/
def c3state : RedisState :=
  setData rEmpty "k" (some (RVal.hash [("x", "a")]))

/-- C3, counterexample: the whole-hash adapter does not round-trip on an
arbitrary cache state.  Storing `{"y": "b"}` at a key already holding
the hash `{"x": "a"}` merges the fields (HSET upserts, it does not
replace), so the following fetch returns `{"x": "a", "y": "b"}`, not
the stored value; and storing the empty dict of the declared shape is
rejected by the client with `DataError`. -/
theorem c3_counterexample :
    DictCacheable.store c3state "k" [("y", "b")]
      = .ok (setData c3state "k" (some (RVal.hash [("x", "a"), ("y", "b")])))
    ∧ DictCacheable.fetch
        (setData c3state "k" (some (RVal.hash [("x", "a"), ("y", "b")]))) "k"
      = .ok (some [("x", "a"), ("y", "b")])
    ∧ DictCacheable.fetch
        (setData c3state "k" (some (RVal.hash [("x", "a"), ("y", "b")]))) "k"
      ≠ .ok (some [("y", "b")])
    ∧ DictCacheable.store rEmpty "k" ([] : List (String × String))
      = .error .dataError := by
  refine ⟨rfl, rfl, ?_, rfl⟩
  intro hbad
  have h2 : DictCacheable.fetch
      (setData c3state "k" (some (RVal.hash [("x", "a"), ("y", "b")]))) "k"
      = .ok (some [("x", "a"), ("y", "b")]) := rfl
  rw [h2] at hbad
  simp at hbad

/-- C3, amended: for every adapter, key `k` and value `v` of the
adapter's declared shape, starting from a cache state in which `k` is
unset — and with `v` non-empty for the whole-hash and whole-list
adapters, whose engine commands reject empty collections — performing
`store(k, v)` and then `fetch(k)` on the resulting state returns `v`.
The hash value carries the Python-dict invariant of pairwise-distinct
field names. -/
theorem c3_roundtrip (s : RedisState) (k : String) (hk : s.data k = none)
    (v dictKey : String) (dv : List (String × String)) (hdv : dv ≠ [])
    (hnd : (dv.map Prod.fst).Nodup) (lv : List String) (hlv : lv ≠ []) :
    (StringCacheable.store s k v = .ok (rSet s k v)
      ∧ StringCacheable.fetch (rSet s k v) k = .ok (some v))
    ∧ (DictStringCacheable.store dictKey s k v
        = .ok (setData s k (some (RVal.hash [(dictKey, v)])))
      ∧ DictStringCacheable.fetch dictKey
          (setData s k (some (RVal.hash [(dictKey, v)]))) k = .ok (some v))
    ∧ (DictCacheable.store s k dv
        = .ok (setData s k (some (RVal.hash dv)))
      ∧ DictCacheable.fetch (setData s k (some (RVal.hash dv))) k
        = .ok (some dv))
    ∧ (ListCacheable.store s k lv
        = .ok (setData (rDelete s k) k (some (RVal.list lv)))
      ∧ ListCacheable.fetch (setData (rDelete s k) k (some (RVal.list lv))) k
        = .ok (some lv)) := by
  refine ⟨⟨rfl, rGet_rSet_self s k v⟩, ⟨?_, ?_⟩, ⟨?_, ?_⟩, ⟨?_, ?_⟩⟩
  · simp [DictStringCacheable.store, hsetField, hk]
  · simp [DictStringCacheable.fetch, hget, setData_data_self, assocGet]
  · have hpairs : hsetPairs [] dv = dv := by
      simpa using hsetPairs_append dv [] hnd (by simp)
    simp [DictCacheable.store, hsetMapping, hk, hdv, hpairs]
  · simp [DictCacheable.fetch, hgetall, setData_data_self, hdv, Except.map]
  · simp [ListCacheable.store, rpush, hlv, rDelete_data_self]
  · simp [ListCacheable.fetch, lrangeAll, setData_data_self, hlv, Except.map]

theorem c3_roundtrip_witness :
    (StringCacheable.store rEmpty "k" "" = .ok (rSet rEmpty "k" "")
      ∧ StringCacheable.fetch (rSet rEmpty "k" "") "k" = .ok (some ""))
    ∧ (DictCacheable.store rEmpty "k" [("x", "a"), ("y", "b")]
        = .ok (setData rEmpty "k"
            (some (RVal.hash [("x", "a"), ("y", "b")])))
      ∧ DictCacheable.fetch
          (setData rEmpty "k" (some (RVal.hash [("x", "a"), ("y", "b")])))
          "k" = .ok (some [("x", "a"), ("y", "b")]))
    ∧ (ListCacheable.store rEmpty "k" ["u", "w"]
        = .ok (setData (rDelete rEmpty "k") "k"
            (some (RVal.list ["u", "w"])))
      ∧ ListCacheable.fetch
          (setData (rDelete rEmpty "k") "k" (some (RVal.list ["u", "w"])))
          "k" = .ok (some ["u", "w"])) := by
  have h := c3_roundtrip rEmpty "k" rfl "" "f" [("x", "a"), ("y", "b")]
    (by simp) (by simp) ["u", "w"] (by simp)
  exact ⟨h.1, h.2.2.1, h.2.2.2⟩

/-- C4: absence is a uniform sentinel distinct from every valid stored
value.  For each of the four adapters, a fetch of a key on which nothing
is stored returns `None`; and whenever a store of a value of the
declared shape is accepted by the engine, the following fetch does not
return the sentinel — in particular the empty string round-trips as a
present value, and the collection shapes that the engine cannot
distinguish from absence (empty hash, empty list) are exactly those
whose stores the engine rejects. -/
theorem c4_sentinel (s : RedisState) (k dictKey : String)
    (hk : s.data k = none) (t t' u u' q q' r r' : RedisState)
    (v vd : String) (dv : List (String × String)) (lv : List String) :
    (StringCacheable.fetch s k = .ok none
      ∧ DictStringCacheable.fetch dictKey s k = .ok none
      ∧ DictCacheable.fetch s k = .ok none
      ∧ ListCacheable.fetch s k = .ok none)
    ∧ (StringCacheable.store t k v = .ok t' →
        StringCacheable.fetch t' k ≠ .ok none)
    ∧ (DictStringCacheable.store dictKey u k vd = .ok u' →
        DictStringCacheable.fetch dictKey u' k ≠ .ok none)
    ∧ (DictCacheable.store q k dv = .ok q' →
        DictCacheable.fetch q' k ≠ .ok none)
    ∧ (ListCacheable.store r k lv = .ok r' →
        ListCacheable.fetch r' k ≠ .ok none) := by
  refine ⟨⟨?_, ?_, ?_, ?_⟩, ?_, ?_, ?_, ?_⟩
  · simp [StringCacheable.fetch, rGet, hk]
  · simp [DictStringCacheable.fetch, hget, hk]
  · simp [DictCacheable.fetch, hgetall, hk, Except.map]
  · simp [ListCacheable.fetch, lrangeAll, hk, Except.map]
  · intro h
    have h' : Except.ok (ε := RErr) (rSet t k v) = .ok t' := h
    injection h' with h'
    subst h'
    simp [StringCacheable.fetch, rGet_rSet_self]
  · intro h
    unfold DictStringCacheable.store hsetField at h
    cases hd : u.data k with
    | none =>
        rw [hd] at h
        injection h with h
        subst h
        simp [DictStringCacheable.fetch, hget, setData_data_self, assocGet]
    | some val =>
        rw [hd] at h
        cases val with
        | str w => exact absurd h (by simp)
        | hash l =>
            injection h with h
            subst h
            simp [DictStringCacheable.fetch, hget, setData_data_self,
              assocGet_assocSet_self]
        | list l => exact absurd h (by simp)
  · intro h
    unfold DictCacheable.store hsetMapping at h
    by_cases hdv : dv = []
    · rw [if_pos hdv] at h
      exact absurd h (by simp)
    · rw [if_neg hdv] at h
      cases hd : q.data k with
      | none =>
          rw [hd] at h
          injection h with h
          subst h
          simp [DictCacheable.fetch, hgetall, setData_data_self,
            hsetPairs_ne_nil [] dv hdv, Except.map]
      | some val =>
          rw [hd] at h
          cases val with
          | str w => exact absurd h (by simp)
          | hash l =>
              injection h with h
              subst h
              simp [DictCacheable.fetch, hgetall, setData_data_self,
                hsetPairs_ne_nil l dv hdv, Except.map]
          | list l => exact absurd h (by simp)
  · intro h
    unfold ListCacheable.store rpush at h
    by_cases hlv : lv = []
    · rw [if_pos hlv] at h
      exact absurd h (by simp)
    · rw [if_neg hlv] at h
      rw [rDelete_data_self] at h
      injection h with h
      subst h
      simp [ListCacheable.fetch, lrangeAll, setData_data_self, hlv, Except.map]

theorem c4_sentinel_witness :
    StringCacheable.fetch rEmpty "k" = .ok none
    ∧ StringCacheable.fetch (rSet rEmpty "k" "") "k" ≠ .ok none
    ∧ DictCacheable.fetch
        (setData rEmpty "k" (some (RVal.hash [("f", "x")]))) "k"
      ≠ .ok none := by
  have h := c4_sentinel rEmpty "k" "f" rfl
    rEmpty (rSet rEmpty "k" "")
    rEmpty (setData rEmpty "k" (some (RVal.hash [("f", "x")])))
    rEmpty (setData rEmpty "k" (some (RVal.hash [("f", "x")])))
    rEmpty (setData (rDelete rEmpty "k") "k" (some (RVal.list ["a"])))
    "" "x" [("f", "x")] ["a"]
  exact ⟨h.1.1, h.2.1 rfl, h.2.2.2.1 rfl⟩

/-- State holding a list value at key `k`, used for the list-replacement
claims. -/
def c7state : RedisState :=
  setData rEmpty "k" (some (RVal.list ["old"]))

/-- C7, counterexample: for the empty list — a value of the adapter's
declared shape — the whole-list store never completes: after the delete
the push of zero elements is rejected by the engine, so the stored list
does not equal the requested value. -/
theorem c7_counterexample :
    ListCacheable.store c7state "k" ([] : List String)
      = .error .wrongArity := rfl

/-- C7, amended: for every key `k` and every non-empty list value `v`
(the engine rejects a push of zero elements), the whole-list store
replaces the stored list by first deleting `k` and then pushing the
elements of `v` in order: between the delete and the push the key is
absent, and after the store completes the stored list equals `v`
element for element, whatever list was previously at `k`. -/
theorem c7_list_replace (s : RedisState) (k : String) (v : List String)
    (hv : v ≠ []) :
    (rDelete s k).data k = none
    ∧ ListCacheable.store s k v
      = .ok (setData (rDelete s k) k (some (RVal.list v)))
    ∧ ListCacheable.fetch (setData (rDelete s k) k (some (RVal.list v))) k
      = .ok (some v) := by
  refine ⟨rDelete_data_self s k, ?_, ?_⟩
  · simp [ListCacheable.store, rpush, hv, rDelete_data_self]
  · simp [ListCacheable.fetch, lrangeAll, setData_data_self, hv, Except.map]

theorem c7_list_replace_witness :
    (rDelete c7state "k").data "k" = none
    ∧ ListCacheable.store c7state "k" ["a", "b"]
      = .ok (setData (rDelete c7state "k") "k"
          (some (RVal.list ["a", "b"])))
    ∧ ListCacheable.fetch
        (setData (rDelete c7state "k") "k" (some (RVal.list ["a", "b"])))
        "k" = .ok (some ["a", "b"]) :=
  c7_list_replace c7state "k" ["a", "b"] (by simp)

/-- C5, counterexample: the credential and db segments follow Python
truthiness, not mere presence.  A given db index of `0` is omitted
(the url is `rediss://h`, not `rediss://h/0`), and a given empty
password is omitted (the url is `rediss://h`, not `rediss://:@h`). -/
theorem c5_counterexample :
    build_redis_url "h" none (some 0) true = "rediss://h"
    ∧ build_redis_url "h" (some "") none true = "rediss://h" := by
  constructor <;> rfl

/-- C5, amended: `build_redis_url` uses scheme `rediss` unless the secure
flag is false (then `redis`); it inserts the credential segment `:p@`
before the host exactly when a truthy (non-empty) password is given,
and appends `/d` exactly when a truthy (non-zero) db index is given —
an empty password or a zero db index is treated as absent; in
particular `build_redis_url("h", None, None)` equals `rediss://h` and a
password `p` yields `rediss://:p@h`. -/
theorem c5_build_url (h p : String) (hp : p ≠ "") (d : Int) (hd : d ≠ 0)
    (op : Option String) (od : Option Int) (sec : Bool) :
    build_redis_url h none none true = "rediss://" ++ h
    ∧ build_redis_url h (some p) none true = "rediss://:" ++ p ++ "@" ++ h
    ∧ build_redis_url h none (some d) true
        = "rediss://" ++ h ++ "/" ++ toString d
    ∧ build_redis_url h (some p) (some d) true
        = "rediss://:" ++ p ++ "@" ++ h ++ "/" ++ toString d
    ∧ build_redis_url h (some p) (some d) false
        = "redis://:" ++ p ++ "@" ++ h ++ "/" ++ toString d
    ∧ build_redis_url h none none false = "redis://" ++ h
    ∧ build_redis_url h (some "") od sec = build_redis_url h none od sec
    ∧ build_redis_url h op (some 0) sec = build_redis_url h op none sec := by
  refine ⟨?_, ?_, ?_, ?_, ?_, ?_, ?_, ?_⟩ <;>
    simp [build_redis_url, truthyStr, truthyInt, hp, hd]

theorem c5_build_url_witness :
    build_redis_url "h" (some "pass") none true = "rediss://:" ++ "pass" ++ "@" ++ "h"
    ∧ build_redis_url "h" (some "pass") (some 2) true
        = "rediss://:" ++ "pass" ++ "@" ++ "h" ++ "/" ++ toString (2 : Int)
    ∧ build_redis_url "h" (some "pass") (some 2) false
        = "redis://:" ++ "pass" ++ "@" ++ "h" ++ "/" ++ toString (2 : Int) := by
  have hw := c5_build_url "h" "pass" (by decide) 2 (by decide) none none true
  exact ⟨hw.2.1, hw.2.2.2.1, hw.2.2.2.2.1⟩

/-- C6: when a time-to-live is configured, the first (miss) call stores
and then issues `expire` on the derived key with the configured value,
so the key's remaining ttl reflects it; when the configured ttl is a
function, that function is applied to the original call arguments and
the stored result value, and its return value is the ttl used.  Stated
for wrappers over the string adapter, for positive configured ttls (the
wrapper skips `expire` on a falsy ttl, and the engine deletes the key
on a non-positive one). -/
theorem c6_ttl {κ μ : Type} [ToString κ] [ToString μ]
    (w : CacheValueWrapper κ μ String String)
    (hce : w.cacheElement = stringElement)
    (s : RedisState) (args : List κ) (kwargs : μ) (n : Int)
    (f : List κ → μ → String → Int)
    (hmiss : w.cacheElement.getValue s (w.calculateCacheKey args kwargs)
        = .ok none) :
    (w.expireSpec = ExpireSpec.const n → 0 < n →
      w.call s args kwargs
        = .ok ⟨w.func args kwargs,
               rExpire (rSet s (w.calculateCacheKey args kwargs)
                   (w.func args kwargs))
                 (w.calculateCacheKey args kwargs) n, 1, 1⟩
      ∧ (rExpire (rSet s (w.calculateCacheKey args kwargs)
              (w.func args kwargs))
            (w.calculateCacheKey args kwargs) n).ttl
          (w.calculateCacheKey args kwargs) = some n)
    ∧ (w.expireSpec = ExpireSpec.func f →
      w.calcExpire (w.func args kwargs) args kwargs
        = some (f args kwargs (w.func args kwargs))
      ∧ (0 < f args kwargs (w.func args kwargs) →
        w.call s args kwargs
          = .ok ⟨w.func args kwargs,
                 rExpire (rSet s (w.calculateCacheKey args kwargs)
                     (w.func args kwargs))
                   (w.calculateCacheKey args kwargs)
                   (f args kwargs (w.func args kwargs)), 1, 1⟩
        ∧ (rExpire (rSet s (w.calculateCacheKey args kwargs)
                (w.func args kwargs))
              (w.calculateCacheKey args kwargs)
              (f args kwargs (w.func args kwargs))).ttl
            (w.calculateCacheKey args kwargs)
          = some (f args kwargs (w.func args kwargs)))) := by
  have hs : w.cacheElement.setValue s (w.calculateCacheKey args kwargs)
      (w.func args kwargs)
      = .ok (rSet s (w.calculateCacheKey args kwargs)
          (w.func args kwargs)) := by
    rw [hce]; rfl
  have hc := call_of_miss w s _ args kwargs hmiss hs
  have hdata : (rSet s (w.calculateCacheKey args kwargs)
      (w.func args kwargs)).data (w.calculateCacheKey args kwargs) ≠ none := by
    rw [rSet_data_self]; simp
  constructor
  · intro he hn
    have hne : n ≠ 0 := by omega
    constructor
    · rw [hc]
      simp [CacheValueWrapper.postStore, CacheValueWrapper.calcExpire, he, hne]
    · exact rExpire_ttl_self_of_pos _ _ n hn hdata
  · intro he
    refine ⟨by simp [CacheValueWrapper.calcExpire, he], ?_⟩
    intro hpos
    have hne : f args kwargs (w.func args kwargs) ≠ 0 := by omega
    constructor
    · rw [hc]
      simp [CacheValueWrapper.postStore, CacheValueWrapper.calcExpire, he, hne]
    · exact rExpire_ttl_self_of_pos _ _ _ hpos hdata

/-- Wrapper configured with a fixed `expire_in` of 12 seconds. -/
def c6ConstWrapper : CacheValueWrapper String String String String :=
  ⟨"f", fun _ _ => "v", stringElement, some (fun _ _ => "k"),
    ExpireSpec.const 12⟩

/-- Wrapper whose `expire_in` is a function returning 15 seconds. -/
def c6FuncWrapper : CacheValueWrapper String String String String :=
  ⟨"f", fun _ _ => "v", stringElement, some (fun _ _ => "k"),
    ExpireSpec.func (fun _ _ _ => 15)⟩

theorem c6_ttl_witness :
    (c6ConstWrapper.call rEmpty [] ""
        = .ok ⟨"v", rExpire (rSet rEmpty "k" "v") "k" 12, 1, 1⟩
      ∧ (rExpire (rSet rEmpty "k" "v") "k" 12).ttl "k" = some 12)
    ∧ (c6FuncWrapper.calcExpire "v" [] "" = some 15
      ∧ c6FuncWrapper.call rEmpty [] ""
          = .ok ⟨"v", rExpire (rSet rEmpty "k" "v") "k" 15, 1, 1⟩
      ∧ (rExpire (rSet rEmpty "k" "v") "k" 15).ttl "k" = some 15) := by
  have h1 := (c6_ttl c6ConstWrapper rfl rEmpty [] "" 12
    (fun _ _ _ => 15) rfl).1 rfl (by norm_num)
  have h2 := (c6_ttl c6FuncWrapper rfl rEmpty [] "" 12
    (fun _ _ _ => 15) rfl).2 rfl
  exact ⟨⟨h1.1, h1.2⟩, ⟨h2.1, (h2.2 (by norm_num)).1, (h2.2 (by norm_num)).2⟩⟩

/-- C8: every invocation begins with a fetch of the derived key from the
shared cache; whenever that fetch is a hit the call returns the fetched
value without invoking the wrapped function; consequently if the stored
value under the key is overwritten out-of-band between two calls, the
second call returns the new stored value — the wrapper keeps no
client-side copy of previously returned values. -/
theorem c8_no_client_copy {κ μ : Type} [ToString κ] [ToString μ]
    (w : CacheValueWrapper κ μ String String)
    (hce : w.cacheElement = stringElement)
    (s : RedisState) (args : List κ) (kwargs : μ) (newVal : String) :
    (∀ v, w.cacheElement.getValue s (w.calculateCacheKey args kwargs)
        = .ok (some v) →
      w.call s args kwargs = .ok ⟨v, s, 0, 0⟩)
    ∧ (∀ res : CallResult String, w.call s args kwargs = .ok res →
      w.call (rSet res.state (w.calculateCacheKey args kwargs) newVal)
          args kwargs
        = .ok ⟨newVal,
               rSet res.state (w.calculateCacheKey args kwargs) newVal,
               0, 0⟩) := by
  constructor
  · intro v hv
    exact call_of_hit w s args kwargs v hv
  · intro res _
    apply call_of_hit
    rw [hce]
    show stringElement.getValue _ _ = _
    simp [CacheElement.getValue, stringElement, StringCacheable.fetch,
      rGet_rSet_self, Except.map]

theorem c8_no_client_copy_witness :
    c1Wrapper.call (rSet (rSet rEmpty "k" "v") "k" "other") [] ""
      = .ok ⟨"other", rSet (rSet rEmpty "k" "v") "k" "other", 0, 0⟩ :=
  (c8_no_client_copy c1Wrapper rfl rEmpty [] "" "other").2
    ⟨"v", rSet rEmpty "k" "v", 1, 1⟩ rfl

/-- C9 helper: appending a fresh entry preserves existing lookups. -/
theorem lookupInstance_append (l : List (String × Nat)) (u : String)
    (c : Nat) (p : String × Nat) (h : lookupInstance l u = some c) :
    lookupInstance (l ++ [p]) u = some c := by
  induction l with
  | nil => simp [lookupInstance] at h
  | cons q rest ih =>
      obtain ⟨qu, qc⟩ := q
      by_cases hq : u = qu
      · simpa [lookupInstance, hq] using h
      · rw [List.cons_append]
        simp only [lookupInstance, hq, if_false] at h ⊢
        exact ih h

/-- C9 helper: registering at a fresh url makes it found afterwards. -/
theorem lookupInstance_append_fresh (l : List (String × Nat)) (u : String)
    (c : Nat) (h : lookupInstance l u = none) :
    lookupInstance (l ++ [(u, c)]) u = some c := by
  induction l with
  | nil => simp [lookupInstance]
  | cons q rest ih =>
      obtain ⟨qu, qc⟩ := q
      by_cases hq : u = qu
      · simp [lookupInstance, hq] at h
      · rw [List.cons_append]
        simp only [lookupInstance, hq, if_false] at h ⊢
        exact ih h

/-- C9 helper: one `get_cache` call never loses a registered client. -/
theorem get_cache_preserves (reg : CacheRegistry) (u u' : String) (c : Nat)
    (h : lookupInstance reg.instances u = some c) :
    lookupInstance (get_cache reg u').2.instances u = some c := by
  unfold get_cache
  cases hl : lookupInstance reg.instances u' with
  | some c' => simpa using h
  | none => simpa using lookupInstance_append reg.instances u c (u', reg.nextId) h

/-- C9 helper: any sequence of calls never loses a registered client. -/
theorem runGetCaches_preserves (urls : List String) (reg : CacheRegistry)
    (u : String) (c : Nat) (h : lookupInstance reg.instances u = some c) :
    lookupInstance (runGetCaches reg urls).instances u = some c := by
  induction urls generalizing reg with
  | nil => exact h
  | cons x xs ih => exact ih _ (get_cache_preserves reg u x c h)

/-- C9: for a configured URL not yet registered, the first `get_cache`
call constructs exactly one client and registers it under that URL, and
every later call with the same URL — issued after any interleaved
`get_cache` calls from the same or any other holder (the registry is
the class attribute `_cache_instances`, shared process-wide and keyed
by URL alone) — returns that same client without constructing a new one
and leaves the registry unchanged. -/
theorem c9_get_cache_memoized (reg : CacheRegistry) (url : String)
    (h : lookupInstance reg.instances url = none) (urls : List String) :
    (get_cache reg url).1 = reg.nextId
    ∧ (get_cache reg url).2.nextId = reg.nextId + 1
    ∧ (get_cache reg url).2.instances = reg.instances ++ [(url, reg.nextId)]
    ∧ get_cache (runGetCaches (get_cache reg url).2 urls) url
        = ((get_cache reg url).1, runGetCaches (get_cache reg url).2 urls) := by
  have hg : get_cache reg url
      = (reg.nextId, ⟨reg.instances ++ [(url, reg.nextId)], reg.nextId + 1⟩) := by
    unfold get_cache
    rw [h]
  refine ⟨by rw [hg], by rw [hg], by rw [hg], ?_⟩
  have hlook : lookupInstance (get_cache reg url).2.instances url
      = some reg.nextId := by
    rw [hg]
    exact lookupInstance_append_fresh reg.instances url reg.nextId h
  have hkeep := runGetCaches_preserves urls (get_cache reg url).2 url
    reg.nextId hlook
  rw [hg]
  unfold get_cache
  rw [hg] at hkeep
  rw [hkeep]

theorem c9_get_cache_memoized_witness :
    (get_cache ⟨[], 0⟩ "redis://u").1 = 0
    ∧ get_cache
        (runGetCaches (get_cache ⟨[], 0⟩ "redis://u").2
          ["redis://a", "redis://u", "redis://b"]) "redis://u"
      = ((get_cache ⟨[], 0⟩ "redis://u").1,
         runGetCaches (get_cache ⟨[], 0⟩ "redis://u").2
           ["redis://a", "redis://u", "redis://b"]) := by
  have h := c9_get_cache_memoized ⟨[], 0⟩ "redis://u" rfl
    ["redis://a", "redis://u", "redis://b"]
  exact ⟨h.1, h.2.2.2⟩

end RedisDec
